import Mathlib

/-!
# Verification of the libavif HDR gain-map subsystem

Shallow embedding of the gain-map subsystem of libavif and of the byte-order
helpers in `src/utils.c`, together with proofs of the specified properties.

Machine integers are embedded as `Nat` (with explicit `% 256` / width bounds
where overflow matters), C doubles as exact rationals `ℚ`, and fallible C
functions as `Except avifResult` / `Option` values.
-/

/-! ## Byte-order helpers (`src/utils.c`)

The C functions build an explicit big-endian byte array and `memcpy` it
to/from a machine integer, so their value depends on the host byte order.
We model the host representation explicitly: `le = true` means the host is
little-endian (memory index 0 holds the least significant byte).
A bitmask `x & 0xff` is embedded as `x % 256`, a shift `x >> 8k` as division
by `256^k`, and a bitwise-or of byte-disjoint operands as addition. -/

/-- Value of a byte list read in memory order on a little-endian host:
memory index 0 is the least significant byte. -/
def leVal : List Nat → Nat
  | [] => 0
  | b :: bs => b + 256 * leVal bs

/-- The `n` memory-order bytes of value `v` on a little-endian host. -/
def leBytes : Nat → Nat → List Nat
  | 0, _ => []
  | n + 1, v => v % 256 :: leBytes n (v / 256)

/-- `memcpy(&result, data, n)`: reinterpret a memory-order byte array as an
unsigned integer on a host of the given endianness. -/
def hostOfBytes (le : Bool) (bs : List Nat) : Nat :=
  leVal (if le then bs else bs.reverse)

/-- `memcpy(&data, &v, n)`: the memory-order byte array of an unsigned
integer on a host of the given endianness. -/
def bytesOfHost (le : Bool) (n : Nat) (v : Nat) : List Nat :=
  if le then leBytes n v else (leBytes n v).reverse

/-- `avifHTONS` from `src/utils.c`: store the two big-endian bytes of `s`
and reinterpret them in host order. -/
def avifHTONS (le : Bool) (s : Nat) : Nat :=
  hostOfBytes le [s / 256 % 256, s % 256]

/-- `avifNTOHS` from `src/utils.c`: take the host-order bytes of `s` and
reassemble them big-endian: `(data[1] << 0) | (data[0] << 8)`. -/
def avifNTOHS (le : Bool) (s : Nat) : Nat :=
  let data := bytesOfHost le 2 s
  data.getD 1 0 + 256 * data.getD 0 0

/-- `avifHTONL` from `src/utils.c`. -/
def avifHTONL (le : Bool) (l : Nat) : Nat :=
  hostOfBytes le [l / 16777216 % 256, l / 65536 % 256, l / 256 % 256, l % 256]

/-- `avifNTOHL` from `src/utils.c`:
`data[3] | data[2] << 8 | data[1] << 16 | data[0] << 24`. -/
def avifNTOHL (le : Bool) (l : Nat) : Nat :=
  let data := bytesOfHost le 4 l
  data.getD 3 0 + 256 * data.getD 2 0 + 65536 * data.getD 1 0 +
    16777216 * data.getD 0 0

/-- `avifHTON64` from `src/utils.c`. -/
def avifHTON64 (le : Bool) (v : Nat) : Nat :=
  hostOfBytes le
    [v / 72057594037927936 % 256, v / 281474976710656 % 256,
     v / 1099511627776 % 256, v / 4294967296 % 256,
     v / 16777216 % 256, v / 65536 % 256, v / 256 % 256, v % 256]

/-- `avifNTOH64` from `src/utils.c`. -/
def avifNTOH64 (le : Bool) (v : Nat) : Nat :=
  let data := bytesOfHost le 8 v
  data.getD 7 0 + 256 * data.getD 6 0 + 65536 * data.getD 5 0 +
    16777216 * data.getD 4 0 + 4294967296 * data.getD 3 0 +
    1099511627776 * data.getD 2 0 + 281474976710656 * data.getD 1 0 +
    72057594037927936 * data.getD 0 0

/-- Storing a byte list little-endian and re-reading its bytes is the
identity, provided every entry is a byte. -/
lemma leBytes_leVal (bs : List Nat) (h : ∀ b ∈ bs, b < 256) :
    leBytes bs.length (leVal bs) = bs := by
  induction bs with
  | nil => rfl
  | cons b t ih =>
    have hb : b < 256 := h b (List.mem_cons_self b t)
    simp only [List.length_cons, leBytes, leVal]
    have h1 : (b + 256 * leVal t) % 256 = b := by omega
    have h2 : (b + 256 * leVal t) / 256 = leVal t := by omega
    rw [h1, h2, ih (fun x hx => h x (List.mem_cons_of_mem b hx))]

/-- `memcpy` out of a machine integer recovers exactly the bytes that were
`memcpy`ed into it, whatever the host byte order. -/
lemma bytesOfHost_hostOfBytes (le : Bool) (bs : List Nat)
    (h : ∀ b ∈ bs, b < 256) :
    bytesOfHost le bs.length (hostOfBytes le bs) = bs := by
  cases le with
  | false =>
    simp only [bytesOfHost, hostOfBytes, if_false, Bool.false_eq_true]
    have h' : ∀ b ∈ bs.reverse, b < 256 := fun b hb =>
      h b (List.mem_reverse.mp hb)
    rw [show bs.length = bs.reverse.length from (bs.length_reverse).symm,
      leBytes_leVal bs.reverse h', List.reverse_reverse]
  | true =>
    simp only [bytesOfHost, hostOfBytes, if_true]
    exact leBytes_leVal bs h

/-- C9: each network-order conversion composed with its inverse is the
identity on values of the corresponding width, on hosts of either byte
order. -/
theorem avifNTOH_avifHTON_id (le : Bool) (s l v : Nat)
    (hs : s < 65536) (hl : l < 4294967296) (hv : v < 18446744073709551616) :
    avifNTOHS le (avifHTONS le s) = s ∧ avifNTOHL le (avifHTONL le l) = l ∧
      avifNTOH64 le (avifHTON64 le v) = v := by
  refine ⟨?_, ?_, ?_⟩
  · have h := bytesOfHost_hostOfBytes le [s / 256 % 256, s % 256]
      (by intro b hb
          simp only [List.mem_cons, List.not_mem_nil, or_false] at hb
          rcases hb with h' | h' <;> subst h' <;>
            exact Nat.mod_lt _ (by norm_num))
    simp only [List.length_cons, List.length_nil] at h
    simp only [avifNTOHS, avifHTONS, h, List.getD, List.get?, Option.getD]
    omega
  · have h := bytesOfHost_hostOfBytes le
      [l / 16777216 % 256, l / 65536 % 256, l / 256 % 256, l % 256]
      (by intro b hb
          simp only [List.mem_cons, List.not_mem_nil, or_false] at hb
          rcases hb with h' | h' | h' | h' <;> subst h' <;>
            exact Nat.mod_lt _ (by norm_num))
    simp only [List.length_cons, List.length_nil] at h
    simp only [avifNTOHL, avifHTONL, h, List.getD, List.get?, Option.getD]
    omega
  · have h := bytesOfHost_hostOfBytes le
      [v / 72057594037927936 % 256, v / 281474976710656 % 256,
       v / 1099511627776 % 256, v / 4294967296 % 256,
       v / 16777216 % 256, v / 65536 % 256, v / 256 % 256, v % 256]
      (by intro b hb
          simp only [List.mem_cons, List.not_mem_nil, or_false] at hb
          rcases hb with h' | h' | h' | h' | h' | h' | h' | h' <;> subst h' <;>
            exact Nat.mod_lt _ (by norm_num))
    simp only [List.length_cons, List.length_nil] at h
    simp only [avifNTOH64, avifHTON64, h, List.getD, List.get?, Option.getD]
    omega

/-- Witness for C9 at concrete inputs on a little-endian host. -/
theorem avifNTOH_avifHTON_id_witness :
    4660 < 65536 ∧ 305419896 < 4294967296 ∧
      81985529216486895 < 18446744073709551616 ∧
      (avifNTOHS true (avifHTONS true 4660) = 4660 ∧
        avifNTOHL true (avifHTONL true 305419896) = 305419896 ∧
        avifNTOH64 true (avifHTON64 true 81985529216486895) =
          81985529216486895) :=
  ⟨by decide, by decide, by decide,
    avifNTOH_avifHTON_id true 4660 305419896 81985529216486895
      (by decide) (by decide) (by decide)⟩

/-! ## Result codes and the rational gain-map metadata model

The gain-map implementation itself is not under `src/`; following the spec,
its data model and operations are modelled below.  Fallible operations
return `Except avifResult`, which makes failure atomic by construction
(no partially-populated output exists on the error path). -/

/-- The result codes surfaced by the subsystem (spec section 6). -/
inductive avifResult where
  | invalidParameter
  | invalidImageGrid
  | notImplemented
  | noContent
  | unknownError
  deriving DecidableEq

/-- A per-channel triple: the channel count 3 is a domain constant. -/
structure Tri (α : Type) where
  c0 : α
  c1 : α
  c2 : α
  deriving DecidableEq

/-- A constant triple. -/
def Tri.const (a : α) : Tri α := ⟨a, a, a⟩

/-- Map a function over the three channels. -/
def Tri.map (f : α → β) (t : Tri α) : Tri β := ⟨f t.c0, f t.c1, f t.c2⟩

/-- Apply a fallible conversion to the three channels; the first failing
channel aborts the whole conversion. -/
def Tri.mapE (f : α → Except ε β) (t : Tri α) : Except ε (Tri β) := do
  let a ← f t.c0
  let b ← f t.c1
  let c ← f t.c2
  return ⟨a, b, c⟩

/-- The predicate holds on every channel. -/
def Tri.All (p : α → Prop) (t : Tri α) : Prop := p t.c0 ∧ p t.c1 ∧ p t.c2

/-- The predicate holds on some channel. -/
def Tri.Any (p : α → Prop) (t : Tri α) : Prop := p t.c0 ∨ p t.c1 ∨ p t.c2

/-- The binary predicate holds channel-wise. -/
def Tri.All₂ (p : α → β → Prop) (s : Tri α) (t : Tri β) : Prop :=
  p s.c0 t.c0 ∧ p s.c1 t.c1 ∧ p s.c2 t.c2

instance {α} (p : α → Prop) [DecidablePred p] (t : Tri α) :
    Decidable (Tri.All p t) :=
  decidable_of_iff (p t.c0 ∧ p t.c1 ∧ p t.c2) Iff.rfl

instance {α} (p : α → Prop) [DecidablePred p] (t : Tri α) :
    Decidable (Tri.Any p t) :=
  decidable_of_iff (p t.c0 ∨ p t.c1 ∨ p t.c2) Iff.rfl

instance {α β} (p : α → β → Prop) [∀ a b, Decidable (p a b)] (s : Tri α)
    (t : Tri β) : Decidable (Tri.All₂ p s t) :=
  decidable_of_iff (p s.c0 t.c0 ∧ p s.c1 t.c1 ∧ p s.c2 t.c2) Iff.rfl

/-- `avifGainMapMetadata`: the exact rational wire representation of the
gain-map parameters (spec section 3).  Offset/min/max numerators are signed
32-bit, all other numerators and all denominators unsigned 32-bit, embedded
as `Int` / `Nat`. -/
structure avifGainMapMetadata where
  backwardDirection : Bool
  useBaseColorSpace : Bool
  baseHdrHeadroomN : Nat
  baseHdrHeadroomD : Nat
  alternateHdrHeadroomN : Nat
  alternateHdrHeadroomD : Nat
  baseOffsetN : Tri Int
  baseOffsetD : Tri Nat
  alternateOffsetN : Tri Int
  alternateOffsetD : Tri Nat
  gainMapGammaN : Tri Nat
  gainMapGammaD : Tri Nat
  gainMapMinN : Tri Int
  gainMapMinD : Tri Nat
  gainMapMaxN : Tri Int
  gainMapMaxD : Tri Nat
  deriving DecidableEq

/-- The all-zero default instance (`avifGainMapMetadata()` in C): the
"absent / uninitialized" state, every denominator zero. -/
def avifGainMapMetadata.zero : avifGainMapMetadata :=
  { backwardDirection := false
    useBaseColorSpace := false
    baseHdrHeadroomN := 0
    baseHdrHeadroomD := 0
    alternateHdrHeadroomN := 0
    alternateHdrHeadroomD := 0
    baseOffsetN := Tri.const 0
    baseOffsetD := Tri.const 0
    alternateOffsetN := Tri.const 0
    alternateOffsetD := Tri.const 0
    gainMapGammaN := Tri.const 0
    gainMapGammaD := Tri.const 0
    gainMapMinN := Tri.const 0
    gainMapMinD := Tri.const 0
    gainMapMaxN := Tri.const 0
    gainMapMaxD := Tri.const 0 }

/-- `avifGainMapMetadataDouble`: the lossy floating-point mirror of the same
fields.  C doubles are embedded as exact rationals `ℚ`. -/
structure avifGainMapMetadataDouble where
  gainMapMin : Tri ℚ
  gainMapMax : Tri ℚ
  gainMapGamma : Tri ℚ
  baseOffset : Tri ℚ
  alternateOffset : Tri ℚ
  baseHdrHeadroom : ℚ
  alternateHdrHeadroom : ℚ
  backwardDirection : Bool
  useBaseColorSpace : Bool
  deriving DecidableEq

/-- Modelled from the spec: `ToFraction` (the per-field helper of
`avifGainMapMetadataDoubleToFractions`, whose C source is not under
`src/`).  Approximates a non-negative value by an unsigned rational with a
fixed scale-and-round strategy: scale by `10^6` and round to nearest; if
the scaled numerator overflows the `maxN` range, rescale with the largest
denominator keeping the numerator representable.  Fails with
`InvalidParameter` on a negative value or when no representable
denominator exists.  (C doubles are embedded as exact rationals, so the
non-finite failure case has no counterpart here.) -/
def avifToUnsignedFractionCore (maxN : Nat) (v : ℚ) :
    Except avifResult (Nat × Nat) :=
  if v < 0 then .error .invalidParameter
  else if round (v * 1000000) ≤ (maxN : ℤ) then
    .ok ((round (v * 1000000)).toNat, 1000000)
  else if v ≤ (maxN : ℚ) then
    .ok ((round (v * (⌊(maxN : ℚ) / v⌋ : ℚ))).toNat, ⌊(maxN : ℚ) / v⌋.toNat)
  else .error .invalidParameter

/-- `ToFraction` for an unsigned 32-bit numerator. -/
def avifToUnsignedFraction (v : ℚ) : Except avifResult (Nat × Nat) :=
  avifToUnsignedFractionCore 4294967295 v

/-- `ToFraction` for a signed 32-bit numerator: convert the magnitude and
reapply the sign. -/
def avifToSignedFraction (v : ℚ) : Except avifResult (Int × Nat) := do
  let nd ← avifToUnsignedFractionCore 2147483647 |v|
  return (if v < 0 then -(nd.1 : Int) else (nd.1 : Int), nd.2)

/-- Per-channel conversion of `gainGamma`, which must be strictly
positive (spec section 4.1: `gainGamma ≤ 0` for any channel is rejected). -/
def avifGammaToFraction (g : ℚ) : Except avifResult (Nat × Nat) :=
  if g ≤ 0 then .error .invalidParameter else avifToUnsignedFraction g

/-- Modelled from the spec: `avifGainMapMetadataDoubleToFractions` (C source
not under `src/`).  Applies `ToFraction` per field and fails atomically if
any field is invalid. -/
def avifGainMapMetadataDoubleToFractions (m : avifGainMapMetadataDouble) :
    Except avifResult avifGainMapMetadata := do
  let gMin ← Tri.mapE avifToSignedFraction m.gainMapMin
  let gMax ← Tri.mapE avifToSignedFraction m.gainMapMax
  let gGamma ← Tri.mapE avifGammaToFraction m.gainMapGamma
  let bOff ← Tri.mapE avifToSignedFraction m.baseOffset
  let aOff ← Tri.mapE avifToSignedFraction m.alternateOffset
  let bh ← avifToUnsignedFraction m.baseHdrHeadroom
  let ah ← avifToUnsignedFraction m.alternateHdrHeadroom
  return { backwardDirection := m.backwardDirection
           useBaseColorSpace := m.useBaseColorSpace
           baseHdrHeadroomN := bh.1
           baseHdrHeadroomD := bh.2
           alternateHdrHeadroomN := ah.1
           alternateHdrHeadroomD := ah.2
           baseOffsetN := bOff.map Prod.fst
           baseOffsetD := bOff.map Prod.snd
           alternateOffsetN := aOff.map Prod.fst
           alternateOffsetD := aOff.map Prod.snd
           gainMapGammaN := gGamma.map Prod.fst
           gainMapGammaD := gGamma.map Prod.snd
           gainMapMinN := gMin.map Prod.fst
           gainMapMinD := gMin.map Prod.snd
           gainMapMaxN := gMax.map Prod.fst
           gainMapMaxD := gMax.map Prod.snd }

/-- Some denominator of the rational metadata is zero (in particular true
of the all-zero default instance). -/
def avifGainMapMetadata.HasZeroDenominator (m : avifGainMapMetadata) : Prop :=
  m.baseHdrHeadroomD = 0 ∨ m.alternateHdrHeadroomD = 0 ∨
    Tri.Any (· = 0) m.baseOffsetD ∨ Tri.Any (· = 0) m.alternateOffsetD ∨
    Tri.Any (· = 0) m.gainMapGammaD ∨ Tri.Any (· = 0) m.gainMapMinD ∨
    Tri.Any (· = 0) m.gainMapMaxD

instance (m : avifGainMapMetadata) : Decidable m.HasZeroDenominator := by
  unfold avifGainMapMetadata.HasZeroDenominator
  infer_instance

/-- Exact rational value of a signed fraction. -/
def fracQ (n : Int) (d : Nat) : ℚ := (n : ℚ) / (d : ℚ)

/-- Exact rational value of an unsigned fraction. -/
def fracQN (n : Nat) (d : Nat) : ℚ := (n : ℚ) / (d : ℚ)

/-- Channel-wise `fracQ`. -/
def triFrac (n : Tri Int) (d : Tri Nat) : Tri ℚ :=
  ⟨fracQ n.c0 d.c0, fracQ n.c1 d.c1, fracQ n.c2 d.c2⟩

/-- Channel-wise `fracQN`. -/
def triFracN (n : Tri Nat) (d : Tri Nat) : Tri ℚ :=
  ⟨fracQN n.c0 d.c0, fracQN n.c1 d.c1, fracQN n.c2 d.c2⟩

/-- Modelled from the spec: `avifGainMapMetadataFractionsToDouble` (C source
not under `src/`).  Fails with `InvalidParameter` if any denominator is
zero, detecting the "absent/uninitialized" state; otherwise division is
exact. -/
def avifGainMapMetadataFractionsToDouble (m : avifGainMapMetadata) :
    Except avifResult avifGainMapMetadataDouble :=
  if m.HasZeroDenominator then .error .invalidParameter
  else .ok
    { gainMapMin := triFrac m.gainMapMinN m.gainMapMinD
      gainMapMax := triFrac m.gainMapMaxN m.gainMapMaxD
      gainMapGamma := triFracN m.gainMapGammaN m.gainMapGammaD
      baseOffset := triFrac m.baseOffsetN m.baseOffsetD
      alternateOffset := triFrac m.alternateOffsetN m.alternateOffsetD
      baseHdrHeadroom := fracQN m.baseHdrHeadroomN m.baseHdrHeadroomD
      alternateHdrHeadroom :=
        fracQN m.alternateHdrHeadroomN m.alternateHdrHeadroomD
      backwardDirection := m.backwardDirection
      useBaseColorSpace := m.useBaseColorSpace }

/-! ## Round-trip and rejection lemmas for the metadata conversions -/

lemma exceptBind_ok {α β ε : Type} (a : α) (f : α → Except ε β) :
    (Except.ok a : Except ε α) >>= f = f a := rfl

lemma exceptBind_error {α β ε : Type} (e : ε) (f : α → Except ε β) :
    (Except.error e : Except ε α) >>= f = .error e := rfl

lemma round_nonneg_of_nonneg (x : ℚ) (h : 0 ≤ x) : 0 ≤ round x := by
  rw [round_eq]
  exact Int.floor_nonneg.mpr (by linarith)

/-- In the 10^6-scale regime, `ToFraction` takes the plain
scale-and-round branch. -/
lemma avifToUnsignedFractionCore_eq (maxN : Nat) (hmax : 2147483647 ≤ maxN)
    (v : ℚ) (h0 : 0 ≤ v) (h1 : v ≤ 2147) :
    avifToUnsignedFractionCore maxN v =
      .ok ((round (v * 1000000)).toNat, 1000000) := by
  unfold avifToUnsignedFractionCore
  rw [if_neg (not_lt.mpr h0), if_pos]
  have hfl : (round (v * 1000000) : ℚ) ≤ v * 1000000 + 1 / 2 := by
    rw [round_eq]
    exact_mod_cast Int.floor_le (v * 1000000 + 1 / 2)
  have hByQ : ((2147483647 : ℕ) : ℚ) ≤ (maxN : ℚ) := by exact_mod_cast hmax
  have : (round (v * 1000000) : ℚ) ≤ (maxN : ℚ) := by
    push_cast at hByQ ⊢
    nlinarith
  exact_mod_cast this

/-- Scale-and-round at denominator 10^6 reproduces a non-negative value
within `1e-6` absolute tolerance. -/
lemma fracQN_round_close (v : ℚ) (h0 : 0 ≤ v) :
    |fracQN (round (v * 1000000)).toNat 1000000 - v| ≤ 1 / 1000000 := by
  have hnn : 0 ≤ round (v * 1000000) :=
    round_nonneg_of_nonneg _ (by positivity)
  have habs := abs_sub_round (v * 1000000)
  unfold fracQN
  rw [show (((round (v * 1000000)).toNat : ℕ) : ℚ) =
      ((round (v * 1000000) : ℤ) : ℚ) by exact_mod_cast Int.toNat_of_nonneg hnn]
  rw [show ((1000000 : ℕ) : ℚ) = (1000000 : ℚ) by norm_num]
  rw [show ((round (v * 1000000) : ℤ) : ℚ) / 1000000 - v =
      -((v * 1000000 - (round (v * 1000000) : ℤ)) / 1000000) by ring]
  rw [abs_neg, abs_div]
  rw [show |(1000000 : ℚ)| = 1000000 by norm_num]
  linarith

/-- Signed `ToFraction` succeeds with denominator 10^6 on magnitudes in
the 10^6-scale regime, and its value is within `1e-6` of the input. -/
lemma avifToSignedFraction_ok (v : ℚ) (h : |v| ≤ 2147) :
    ∃ n : Int, avifToSignedFraction v = .ok (n, 1000000) ∧
      |fracQ n 1000000 - v| ≤ 1 / 1000000 := by
  have h0 : (0 : ℚ) ≤ |v| := abs_nonneg v
  have hok := avifToUnsignedFractionCore_eq 2147483647 (le_refl _) |v| h0 h
  have hc := fracQN_round_close |v| h0
  by_cases hv : v < 0
  · refine ⟨-((round (|v| * 1000000)).toNat : Int), ?_, ?_⟩
    · simp [avifToSignedFraction, hok, exceptBind_ok, if_pos hv]
    · unfold fracQ
      unfold fracQN at hc
      rw [abs_of_neg hv] at hc ⊢
      push_cast at hc ⊢
      rw [show -((round (-v * 1000000)).toNat : ℚ) / 1000000 - v =
          -(((round (-v * 1000000)).toNat : ℚ) / 1000000 - -v) by ring,
        abs_neg]
      exact hc
  · refine ⟨((round (|v| * 1000000)).toNat : Int), ?_, ?_⟩
    · simp [avifToSignedFraction, hok, exceptBind_ok, if_neg hv]
    · unfold fracQ
      unfold fracQN at hc
      rw [abs_of_nonneg (not_lt.mp hv)] at hc ⊢
      push_cast at hc ⊢
      exact hc

/-- Unsigned `ToFraction` succeeds with denominator 10^6 in the
10^6-scale regime. -/
lemma avifToUnsignedFraction_ok (v : ℚ) (h0 : 0 ≤ v) (h1 : v ≤ 2147) :
    avifToUnsignedFraction v = .ok ((round (v * 1000000)).toNat, 1000000) :=
  avifToUnsignedFractionCore_eq 4294967295 (by norm_num) v h0 h1

/-- The gamma conversion succeeds on strictly positive gammas in range. -/
lemma avifGammaToFraction_ok (g : ℚ) (h0 : 0 < g) (h1 : g ≤ 2147) :
    avifGammaToFraction g = .ok ((round (g * 1000000)).toNat, 1000000) := by
  unfold avifGammaToFraction
  rw [if_neg (not_le.mpr h0)]
  exact avifToUnsignedFraction_ok g h0.le h1

/-- Channel-wise success of the signed conversion. -/
lemma triSigned_ok (t : Tri ℚ) (h : Tri.All (fun x => |x| ≤ 2147) t) :
    ∃ n : Tri Int,
      Tri.mapE avifToSignedFraction t =
        .ok ⟨(n.c0, 1000000), (n.c1, 1000000), (n.c2, 1000000)⟩ ∧
      Tri.All₂ (fun a b => |fracQ a 1000000 - b| ≤ 1 / 1000000) n t := by
  obtain ⟨n0, e0, hc0⟩ := avifToSignedFraction_ok t.c0 h.1
  obtain ⟨n1, e1, hc1⟩ := avifToSignedFraction_ok t.c1 h.2.1
  obtain ⟨n2, e2, hc2⟩ := avifToSignedFraction_ok t.c2 h.2.2
  exact ⟨⟨n0, n1, n2⟩,
    by simp [Tri.mapE, e0, e1, e2, exceptBind_ok], ⟨hc0, hc1, hc2⟩⟩

/-- Channel-wise success of the gamma conversion. -/
lemma triGamma_ok (t : Tri ℚ) (h : Tri.All (fun g => 0 < g ∧ g ≤ 2147) t) :
    Tri.mapE avifGammaToFraction t =
      .ok ⟨((round (t.c0 * 1000000)).toNat, 1000000),
           ((round (t.c1 * 1000000)).toNat, 1000000),
           ((round (t.c2 * 1000000)).toNat, 1000000)⟩ := by
  simp [Tri.mapE, avifGammaToFraction_ok t.c0 h.1.1 h.1.2,
    avifGammaToFraction_ok t.c1 h.2.1.1 h.2.1.2,
    avifGammaToFraction_ok t.c2 h.2.2.1 h.2.2.2, exceptBind_ok]

/-- If a channel-wise conversion succeeds, every channel's conversion
succeeds. -/
lemma triMapE_ok_imp {α β : Type} (f : α → Except avifResult β) (t : Tri α)
    (r : Tri β) (h : Tri.mapE f t = .ok r) :
    (∃ a, f t.c0 = .ok a) ∧ (∃ b, f t.c1 = .ok b) ∧ ∃ c, f t.c2 = .ok c := by
  unfold Tri.mapE at h
  cases h0 : f t.c0 with
  | error e => rw [h0, exceptBind_error] at h; exact absurd h (by simp)
  | ok a =>
    rw [h0, exceptBind_ok] at h
    cases h1 : f t.c1 with
    | error e => rw [h1, exceptBind_error] at h; exact absurd h (by simp)
    | ok b =>
      rw [h1, exceptBind_ok] at h
      cases h2 : f t.c2 with
      | error e => rw [h2, exceptBind_error] at h; exact absurd h (by simp)
      | ok c => exact ⟨⟨a, rfl⟩, ⟨b, rfl⟩, ⟨c, rfl⟩⟩

/-- `a` is within `1e-6` absolute tolerance of `b`. -/
def qClose (a b : ℚ) : Prop := |a - b| ≤ 1 / 1000000

instance (a b : ℚ) : Decidable (qClose a b) := by
  unfold qClose
  infer_instance

/-- A valid `avifGainMapMetadataDouble`: every field finite (automatic for
`ℚ`), every channel's `gainGamma` strictly positive, and every field in the
regime where the fixed 10^6-scale denominators of `ToFraction` apply
(spec section 3: round trip is guaranteed "given denominators chosen with
enough precision (e.g., 1e6-scale)"). -/
def avifGainMapMetadataDouble.Valid (m : avifGainMapMetadataDouble) : Prop :=
  0 ≤ m.baseHdrHeadroom ∧ m.baseHdrHeadroom ≤ 2147 ∧
    0 ≤ m.alternateHdrHeadroom ∧ m.alternateHdrHeadroom ≤ 2147 ∧
    Tri.All (fun g => 0 < g ∧ g ≤ 2147) m.gainMapGamma ∧
    Tri.All (fun x => -2147 ≤ x ∧ x ≤ 2147) m.gainMapMin ∧
    Tri.All (fun x => -2147 ≤ x ∧ x ≤ 2147) m.gainMapMax ∧
    Tri.All (fun x => -2147 ≤ x ∧ x ≤ 2147) m.baseOffset ∧
    Tri.All (fun x => -2147 ≤ x ∧ x ≤ 2147) m.alternateOffset

/-- Two-sided bounds give the magnitude bound used by the conversion
lemmas. -/
lemma triAbs_of_bounds (t : Tri ℚ)
    (h : Tri.All (fun x => -2147 ≤ x ∧ x ≤ 2147) t) :
    Tri.All (fun x => |x| ≤ 2147) t :=
  ⟨abs_le.mpr h.1, abs_le.mpr h.2.1, abs_le.mpr h.2.2⟩

instance (m : avifGainMapMetadataDouble) : Decidable m.Valid := by
  unfold avifGainMapMetadataDouble.Valid
  infer_instance

/-- C1: for every valid `avifGainMapMetadataDouble`, converting to rational
metadata and back succeeds and reproduces every field within `1e-6`
absolute tolerance, preserving `backwardDirection` exactly. -/
theorem gainMapMetadata_roundTrip (m : avifGainMapMetadataDouble)
    (hm : m.Valid) :
    ∃ r m2, avifGainMapMetadataDoubleToFractions m = .ok r ∧
      avifGainMapMetadataFractionsToDouble r = .ok m2 ∧
      Tri.All₂ qClose m2.gainMapMin m.gainMapMin ∧
      Tri.All₂ qClose m2.gainMapMax m.gainMapMax ∧
      Tri.All₂ qClose m2.gainMapGamma m.gainMapGamma ∧
      Tri.All₂ qClose m2.baseOffset m.baseOffset ∧
      Tri.All₂ qClose m2.alternateOffset m.alternateOffset ∧
      qClose m2.baseHdrHeadroom m.baseHdrHeadroom ∧
      qClose m2.alternateHdrHeadroom m.alternateHdrHeadroom ∧
      m2.backwardDirection = m.backwardDirection ∧
      m2.useBaseColorSpace = m.useBaseColorSpace := by
  obtain ⟨hbh0, hbh1, hah0, hah1, hgam, hmin, hmax, hboff, haoff⟩ := hm
  obtain ⟨nMin, eMin, cMin⟩ :=
    triSigned_ok m.gainMapMin (triAbs_of_bounds _ hmin)
  obtain ⟨nMax, eMax, cMax⟩ :=
    triSigned_ok m.gainMapMax (triAbs_of_bounds _ hmax)
  have eGam := triGamma_ok m.gainMapGamma hgam
  obtain ⟨nBO, eBO, cBO⟩ :=
    triSigned_ok m.baseOffset (triAbs_of_bounds _ hboff)
  obtain ⟨nAO, eAO, cAO⟩ :=
    triSigned_ok m.alternateOffset (triAbs_of_bounds _ haoff)
  have eBH := avifToUnsignedFraction_ok m.baseHdrHeadroom hbh0 hbh1
  have eAH := avifToUnsignedFraction_ok m.alternateHdrHeadroom hah0 hah1
  refine ⟨{ backwardDirection := m.backwardDirection
            useBaseColorSpace := m.useBaseColorSpace
            baseHdrHeadroomN := (round (m.baseHdrHeadroom * 1000000)).toNat
            baseHdrHeadroomD := 1000000
            alternateHdrHeadroomN :=
              (round (m.alternateHdrHeadroom * 1000000)).toNat
            alternateHdrHeadroomD := 1000000
            baseOffsetN := nBO
            baseOffsetD := Tri.const 1000000
            alternateOffsetN := nAO
            alternateOffsetD := Tri.const 1000000
            gainMapGammaN := ⟨(round (m.gainMapGamma.c0 * 1000000)).toNat,
                              (round (m.gainMapGamma.c1 * 1000000)).toNat,
                              (round (m.gainMapGamma.c2 * 1000000)).toNat⟩
            gainMapGammaD := Tri.const 1000000
            gainMapMinN := nMin
            gainMapMinD := Tri.const 1000000
            gainMapMaxN := nMax
            gainMapMaxD := Tri.const 1000000 },
    { gainMapMin := triFrac nMin (Tri.const 1000000)
      gainMapMax := triFrac nMax (Tri.const 1000000)
      gainMapGamma :=
        triFracN ⟨(round (m.gainMapGamma.c0 * 1000000)).toNat,
                  (round (m.gainMapGamma.c1 * 1000000)).toNat,
                  (round (m.gainMapGamma.c2 * 1000000)).toNat⟩
          (Tri.const 1000000)
      baseOffset := triFrac nBO (Tri.const 1000000)
      alternateOffset := triFrac nAO (Tri.const 1000000)
      baseHdrHeadroom :=
        fracQN (round (m.baseHdrHeadroom * 1000000)).toNat 1000000
      alternateHdrHeadroom :=
        fracQN (round (m.alternateHdrHeadroom * 1000000)).toNat 1000000
      backwardDirection := m.backwardDirection
      useBaseColorSpace := m.useBaseColorSpace },
    ?_, ?_, ?_, ?_, ?_, ?_, ?_, ?_, ?_, rfl, rfl⟩
  · simp only [avifGainMapMetadataDoubleToFractions, eMin, eMax, eGam, eBO,
      eAO, eBH, eAH, exceptBind_ok, Tri.map, Tri.const]
    rfl
  · unfold avifGainMapMetadataFractionsToDouble
    rw [if_neg (by simp [avifGainMapMetadata.HasZeroDenominator, Tri.Any,
      Tri.const])]
  · exact ⟨cMin.1, cMin.2.1, cMin.2.2⟩
  · exact ⟨cMax.1, cMax.2.1, cMax.2.2⟩
  · exact ⟨fracQN_round_close m.gainMapGamma.c0 hgam.1.1.le,
      fracQN_round_close m.gainMapGamma.c1 hgam.2.1.1.le,
      fracQN_round_close m.gainMapGamma.c2 hgam.2.2.1.le⟩
  · exact ⟨cBO.1, cBO.2.1, cBO.2.2⟩
  · exact ⟨cAO.1, cAO.2.1, cAO.2.2⟩
  · exact fracQN_round_close m.baseHdrHeadroom hbh0
  · exact fracQN_round_close m.alternateHdrHeadroom hah0

/-- The metadata of `GainMapTest.ConvertMetadata` in
`src/tests/gtest/avifgainmaptest.cc`, with the C double literals as exact
rationals. -/
def sampleMetadataDouble : avifGainMapMetadataDouble :=
  { gainMapMin := ⟨1, 11 / 10, 6 / 5⟩
    gainMapMax := ⟨10, 101 / 10, 51 / 5⟩
    gainMapGamma := ⟨1, 1, 6 / 5⟩
    baseOffset := ⟨1 / 32, 1 / 64, 1 / 128⟩
    alternateOffset := ⟨1141 / 250000, 0, 0⟩
    baseHdrHeadroom := 1
    alternateHdrHeadroom := 10
    backwardDirection := true
    useBaseColorSpace := false }

/-- Witness for C1 at the metadata of `GainMapTest.ConvertMetadata`. -/
theorem gainMapMetadata_roundTrip_witness :
    sampleMetadataDouble.Valid ∧
      ∃ r m2,
        avifGainMapMetadataDoubleToFractions sampleMetadataDouble = .ok r ∧
        avifGainMapMetadataFractionsToDouble r = .ok m2 ∧
        Tri.All₂ qClose m2.gainMapMin sampleMetadataDouble.gainMapMin ∧
        Tri.All₂ qClose m2.gainMapMax sampleMetadataDouble.gainMapMax ∧
        Tri.All₂ qClose m2.gainMapGamma sampleMetadataDouble.gainMapGamma ∧
        Tri.All₂ qClose m2.baseOffset sampleMetadataDouble.baseOffset ∧
        Tri.All₂ qClose m2.alternateOffset
          sampleMetadataDouble.alternateOffset ∧
        qClose m2.baseHdrHeadroom sampleMetadataDouble.baseHdrHeadroom ∧
        qClose m2.alternateHdrHeadroom
          sampleMetadataDouble.alternateHdrHeadroom ∧
        m2.backwardDirection = sampleMetadataDouble.backwardDirection ∧
        m2.useBaseColorSpace = sampleMetadataDouble.useBaseColorSpace :=
  ⟨by norm_num [sampleMetadataDouble, avifGainMapMetadataDouble.Valid,
      Tri.All],
    gainMapMetadata_roundTrip sampleMetadataDouble
      (by norm_num [sampleMetadataDouble, avifGainMapMetadataDouble.Valid,
        Tri.All])⟩

/-- The all-zero `avifGainMapMetadataDouble` (`= {}` in the tests). -/
def avifGainMapMetadataDouble.zero : avifGainMapMetadataDouble :=
  { gainMapMin := Tri.const 0
    gainMapMax := Tri.const 0
    gainMapGamma := Tri.const 0
    baseOffset := Tri.const 0
    alternateOffset := Tri.const 0
    baseHdrHeadroom := 0
    alternateHdrHeadroom := 0
    backwardDirection := false
    useBaseColorSpace := false }

/-- The metadata of `GainMapTest.ConvertMetadataToFractionInvalid`:
all-zero except a negative gamma on channel 0. -/
def sampleInvalidDouble : avifGainMapMetadataDouble :=
  { avifGainMapMetadataDouble.zero with gainMapGamma := ⟨-42, 0, 0⟩ }

/-- C2: `DoubleToFractions` fails whenever some channel's gamma is not
strictly positive (atomically — the `Except` result carries no partial
metadata), and `FractionsToDouble` fails with `InvalidParameter` whenever
some denominator is zero, in particular on the all-zero default instance. -/
theorem gainMapMetadata_conversion_rejects (md : avifGainMapMetadataDouble)
    (m : avifGainMapMetadata) :
    (Tri.Any (fun g => g ≤ 0) md.gainMapGamma →
      ∃ e, avifGainMapMetadataDoubleToFractions md = .error e) ∧
    (m.HasZeroDenominator →
      avifGainMapMetadataFractionsToDouble m = .error .invalidParameter) ∧
    avifGainMapMetadataFractionsToDouble avifGainMapMetadata.zero =
      .error .invalidParameter := by
  refine ⟨?_, ?_, ?_⟩
  · intro hg
    cases hDTF : avifGainMapMetadataDoubleToFractions md with
    | error e => exact ⟨e, rfl⟩
    | ok r =>
      exfalso
      unfold avifGainMapMetadataDoubleToFractions at hDTF
      cases h1 : Tri.mapE avifToSignedFraction md.gainMapMin with
      | error e =>
        rw [h1, exceptBind_error] at hDTF
        exact absurd hDTF (by simp)
      | ok gMin =>
        rw [h1, exceptBind_ok] at hDTF
        cases h2 : Tri.mapE avifToSignedFraction md.gainMapMax with
        | error e =>
          rw [h2, exceptBind_error] at hDTF
          exact absurd hDTF (by simp)
        | ok gMax =>
          rw [h2, exceptBind_ok] at hDTF
          cases h3 : Tri.mapE avifGammaToFraction md.gainMapGamma with
          | error e =>
            rw [h3, exceptBind_error] at hDTF
            exact absurd hDTF (by simp)
          | ok gG =>
            obtain ⟨⟨a, ha⟩, ⟨b, hb⟩, ⟨c, hc⟩⟩ := triMapE_ok_imp _ _ _ h3
            rcases hg with h | h | h
            · unfold avifGammaToFraction at ha
              rw [if_pos h] at ha
              exact absurd ha (by simp)
            · unfold avifGammaToFraction at hb
              rw [if_pos h] at hb
              exact absurd hb (by simp)
            · unfold avifGammaToFraction at hc
              rw [if_pos h] at hc
              exact absurd hc (by simp)
  · intro hz
    unfold avifGainMapMetadataFractionsToDouble
    rw [if_pos hz]
  · unfold avifGainMapMetadataFractionsToDouble
    rw [if_pos (by decide)]

/-- Witness for C2 at the inputs of
`GainMapTest.ConvertMetadataToFractionInvalid` (gamma `-42`) and
`GainMapTest.ConvertMetadataToDoubleInvalid` (all-zero metadata). -/
theorem gainMapMetadata_conversion_rejects_witness :
    (Tri.Any (fun g => g ≤ 0) sampleInvalidDouble.gainMapGamma ∧
      ∃ e, avifGainMapMetadataDoubleToFractions sampleInvalidDouble =
        .error e) ∧
    (avifGainMapMetadata.zero.HasZeroDenominator ∧
      avifGainMapMetadataFractionsToDouble avifGainMapMetadata.zero =
        .error .invalidParameter) :=
  ⟨⟨by norm_num [sampleInvalidDouble, avifGainMapMetadataDouble.zero,
      Tri.Any],
    (gainMapMetadata_conversion_rejects sampleInvalidDouble
      avifGainMapMetadata.zero).1
      (by norm_num [sampleInvalidDouble, avifGainMapMetadataDouble.zero,
        Tri.Any])⟩,
   ⟨by decide,
    (gainMapMetadata_conversion_rejects sampleInvalidDouble
      avifGainMapMetadata.zero).2.1 (by decide)⟩⟩

/-! ## GridAssembler: validation of equally-shaped image cells

Modelled from the spec (section 4.2): the C grid validation
(`avifAreGridDimensionsValid` / the cell checks of
`avifEncoderAddImageGrid`) is not under `src/`. -/

/-- The properties of an image cell that grid validation inspects. -/
structure GridImage where
  width : Nat
  height : Nat
  depth : Nat
  yuvFormat : Nat
  deriving DecidableEq

/-- A grid cell: an image plus, for gain-map cells, its rational
metadata. -/
structure GridCell where
  image : GridImage
  gainMapMetadata : Option avifGainMapMetadata
  deriving DecidableEq

/-- Two cells agree on width, height, bit depth, pixel format and (for
gain-map cells) field-wise on the rational metadata. -/
def cellMatches (c f : GridCell) : Prop :=
  c.image.width = f.image.width ∧ c.image.height = f.image.height ∧
    c.image.depth = f.image.depth ∧ c.image.yuvFormat = f.image.yuvFormat ∧
    c.gainMapMetadata = f.gainMapMetadata

instance (c f : GridCell) : Decidable (cellMatches c f) := by
  unfold cellMatches
  infer_instance

lemma cellMatches_refl (c : GridCell) : cellMatches c c :=
  ⟨rfl, rfl, rfl, rfl, rfl⟩

lemma cellMatches_symm {c d : GridCell} (h : cellMatches c d) :
    cellMatches d c :=
  ⟨h.1.symm, h.2.1.symm, h.2.2.1.symm, h.2.2.2.1.symm, h.2.2.2.2.symm⟩

lemma cellMatches_trans {c d e : GridCell} (h1 : cellMatches c d)
    (h2 : cellMatches d e) : cellMatches c e :=
  ⟨h1.1.trans h2.1, h1.2.1.trans h2.2.1, h1.2.2.1.trans h2.2.2.1,
    h1.2.2.2.1.trans h2.2.2.2.1, h1.2.2.2.2.trans h2.2.2.2.2⟩

/-- All cells are non-null and match the first cell. -/
def gridCellsConsistent (cells : List (Option GridCell)) : Bool :=
  match cells with
  | [] => true
  | none :: _ => false
  | some f :: rest =>
    rest.all (fun c => match c with
      | none => false
      | some c => decide (cellMatches c f))

/-- Modelled from the spec: `GridAssembler.Validate` (spec section 4.2).
Requires `cells.length = columns * rows`, all cells non-null, and
identical shape/metadata across cells; any mismatch yields the single
coarse code `InvalidImageGrid`. -/
def gridValidate (columns rows : Nat) (cells : List (Option GridCell)) :
    Except avifResult Unit :=
  if cells.length = columns * rows ∧ gridCellsConsistent cells = true then
    .ok ()
  else .error .invalidImageGrid

/-- Matching the first cell is the same as all cells being non-null and
pairwise matched. -/
lemma gridCellsConsistent_iff (cells : List (Option GridCell)) :
    gridCellsConsistent cells = true ↔
      (∀ x ∈ cells, x ≠ none) ∧
        ∀ c d : GridCell, some c ∈ cells → some d ∈ cells →
          cellMatches c d := by
  cases cells with
  | nil => simp [gridCellsConsistent]
  | cons x rest =>
    cases x with
    | none =>
      constructor
      · intro h
        simp [gridCellsConsistent] at h
      · intro h
        exact absurd rfl (h.1 none (List.mem_cons_self _ _))
    | some f =>
      simp only [gridCellsConsistent, List.all_eq_true]
      constructor
      · intro hall
        have hmatch : ∀ y ∈ rest, ∃ d, y = some d ∧ cellMatches d f := by
          intro y hy
          have hh := hall y hy
          cases y with
          | none => simp at hh
          | some d =>
            refine ⟨d, rfl, ?_⟩
            simpa using hh
        constructor
        · intro x hx
          rcases List.mem_cons.mp hx with h | h
          · subst h
            simp
          · obtain ⟨d, rfl, _⟩ := hmatch x h
            simp
        · intro c d hc hd
          have hcf : cellMatches c f := by
            rcases List.mem_cons.mp hc with h | h
            · injection h with h
              subst h
              exact cellMatches_refl c
            · obtain ⟨c', hc', hm⟩ := hmatch _ h
              injection hc' with h'
              subst h'
              exact hm
          have hdf : cellMatches d f := by
            rcases List.mem_cons.mp hd with h | h
            · injection h with h
              subst h
              exact cellMatches_refl d
            · obtain ⟨d', hd', hm⟩ := hmatch _ h
              injection hd' with h'
              subst h'
              exact hm
          exact cellMatches_trans hcf (cellMatches_symm hdf)
      · intro h y hy
        have hne : y ≠ none := h.1 y (List.mem_cons_of_mem _ hy)
        cases y with
        | none => exact absurd rfl hne
        | some d =>
          simp only [decide_eq_true_eq]
          exact h.2 d f (List.mem_cons_of_mem _ hy) (List.mem_cons_self _ _)

/-- C4: `Validate` returns Ok exactly when the cell count is
`columns * rows`, all cells are non-null, and every pair of cells agrees
on width, height, bit depth, pixel format and gain-map metadata; any
failure is the single coarse error `InvalidImageGrid`, identifying no
specific cell. -/
theorem gridValidate_ok_iff (columns rows : Nat)
    (cells : List (Option GridCell)) :
    (gridValidate columns rows cells = .ok () ↔
      cells.length = columns * rows ∧ (∀ x ∈ cells, x ≠ none) ∧
        ∀ c d : GridCell, some c ∈ cells → some d ∈ cells →
          cellMatches c d) ∧
    (gridValidate columns rows cells ≠ .ok () →
      gridValidate columns rows cells = .error .invalidImageGrid) := by
  have hiff := gridCellsConsistent_iff cells
  by_cases hcond :
      cells.length = columns * rows ∧ gridCellsConsistent cells = true
  · have hv : gridValidate columns rows cells = .ok () := by
      unfold gridValidate
      rw [if_pos hcond]
    constructor
    · rw [hv]
      exact ⟨fun _ => ⟨hcond.1, hiff.mp hcond.2⟩, fun _ => rfl⟩
    · rw [hv]
      intro hne
      exact absurd rfl hne
  · have hv : gridValidate columns rows cells = .error .invalidImageGrid := by
      unfold gridValidate
      rw [if_neg hcond]
    constructor
    · rw [hv]
      constructor
      · intro h
        exact absurd h (by simp)
      · intro h
        exact absurd ⟨h.1, hiff.mpr h.2⟩ hcond
    · intro _
      exact hv

deriving instance DecidableEq for Except

/-- A 2x2 grid from `GainMapTest.InvalidGrid`: the second gain-map cell
has height 90 instead of 100. -/
def invalidGridCells : List (Option GridCell) :=
  [some ⟨⟨64, 100, 8, 1⟩, some avifGainMapMetadata.zero⟩,
   some ⟨⟨64, 90, 8, 1⟩, some avifGainMapMetadata.zero⟩,
   some ⟨⟨64, 100, 8, 1⟩, some avifGainMapMetadata.zero⟩,
   some ⟨⟨64, 100, 8, 1⟩, some avifGainMapMetadata.zero⟩]

/-- Witness for C4 at the mismatched grid of `GainMapTest.InvalidGrid`. -/
theorem gridValidate_ok_iff_witness :
    gridValidate 2 2 invalidGridCells ≠ .ok () ∧
      gridValidate 2 2 invalidGridCells = .error .invalidImageGrid :=
  ⟨by decide, (gridValidate_ok_iff 2 2 invalidGridCells).2 (by decide)⟩

/-! ## Independent base and gain-map grids (spec section 4.5) -/

/-- Logical dimensions of a reassembled grid:
`columns * cellWidth` by `rows * cellHeight` (spec section 3). -/
def gridDims (columns rows : Nat) (cells : List (Option GridCell)) :
    Nat × Nat :=
  match cells with
  | some f :: _ => (columns * f.image.width, rows * f.image.height)
  | _ => (0, 0)

/-- Modelled from the spec: decoding a file whose base image is a grid and
whose gain map is independently a single image (a 1x1 grid) or a grid with
its own column/row count and cell resolution.  Each grid's internal
consistency is validated independently via `gridValidate`; on success the
result carries each grid's reassembled logical dimensions.  (The C decode
path for `color_nogrid_alpha_nogrid_gainmap_grid.avif` and friends is not
under `src/`.) -/
def decodeImageGrids (bCols bRows : Nat) (bCells : List (Option GridCell))
    (gCols gRows : Nat) (gCells : List (Option GridCell)) :
    Except avifResult ((Nat × Nat) × (Nat × Nat)) := do
  let _ ← gridValidate bCols bRows bCells
  let _ ← gridValidate gCols gRows gCells
  return (gridDims bCols bRows bCells, gridDims gCols gRows gCells)

/-- C8: a base grid and a gain-map grid validate independently — decoding
succeeds exactly when each grid is internally consistent, with no
condition relating the two grids (in particular no common divisor of
their dimensions) — and each reassembled size is
`columns * cellWidth` by `rows * cellHeight` separately. -/
theorem baseAndGainMapGrids_independent (bCols bRows : Nat)
    (bCells : List (Option GridCell)) (gCols gRows : Nat)
    (gCells : List (Option GridCell)) (fb fg : GridCell)
    (bTail gTail : List (Option GridCell)) (hb : bCells = some fb :: bTail)
    (hg : gCells = some fg :: gTail) :
    decodeImageGrids bCols bRows bCells gCols gRows gCells =
        .ok ((bCols * fb.image.width, bRows * fb.image.height),
             (gCols * fg.image.width, gRows * fg.image.height)) ↔
      gridValidate bCols bRows bCells = .ok () ∧
        gridValidate gCols gRows gCells = .ok () := by
  subst hb
  subst hg
  unfold decodeImageGrids
  cases hvb : gridValidate bCols bRows (some fb :: bTail) with
  | error e =>
    rw [exceptBind_error]
    constructor
    · intro h
      exact absurd h (by simp)
    · intro h
      exact absurd h.1 (by simp)
  | ok u =>
    cases u
    rw [exceptBind_ok]
    cases hvg : gridValidate gCols gRows (some fg :: gTail) with
    | error e =>
      rw [exceptBind_error]
      constructor
      · intro h
        exact absurd h (by simp)
      · intro h
        exact absurd h.2 (by simp)
    | ok u =>
      cases u
      rw [exceptBind_ok]
      unfold gridDims
      constructor
      · intro _
        exact ⟨rfl, rfl⟩
      · intro _
        rfl

/-- A base cell of a 3x1 grid: 5x7, 10-bit, no gain-map metadata. -/
def sampleBaseCell : GridCell := ⟨⟨5, 7, 10, 1⟩, none⟩

/-- A gain-map cell of a 2x2 grid: 4x3, 8-bit, shared metadata. -/
def sampleGainCell : GridCell := ⟨⟨4, 3, 8, 1⟩, some avifGainMapMetadata.zero⟩

/-- Witness for C8: a 3x1 base grid (15x7) with a 2x2 gain-map grid
(8x6); the assembled widths 15 and 8 (and heights 7 and 6) are coprime,
so no common divisor is required. -/
theorem baseAndGainMapGrids_independent_witness :
    (decodeImageGrids 3 1 [some sampleBaseCell, some sampleBaseCell,
          some sampleBaseCell] 2 2 [some sampleGainCell, some sampleGainCell,
          some sampleGainCell, some sampleGainCell] =
        .ok ((15, 7), (8, 6)) ↔
      gridValidate 3 1 [some sampleBaseCell, some sampleBaseCell,
          some sampleBaseCell] = .ok () ∧
        gridValidate 2 2 [some sampleGainCell, some sampleGainCell,
          some sampleGainCell, some sampleGainCell] = .ok ()) ∧
      Nat.gcd 15 8 = 1 ∧ Nat.gcd 7 6 = 1 :=
  ⟨baseAndGainMapGrids_independent 3 1 _ 2 2 _ sampleBaseCell sampleGainCell
      _ _ rfl rfl,
    by decide, by decide⟩

/-! ## Encode sessions: gain maps and image sequences (spec section 4.5) -/

/-- Modelled from the spec: the gain-map-relevant state of an encode
session (the C encoder is not under `src/`). -/
structure EncoderState where
  framesAdded : Nat
  gainMapAttached : Bool
  deriving DecidableEq

/-- A fresh encode session. -/
def avifEncoderInitial : EncoderState := ⟨0, false⟩

/-- Modelled from the spec: `avifEncoderAddImage` restricted to the
gain-map/sequence interaction.  A gain map must not be attached to more
than one encoded frame of a sequence, so adding a further timed frame to a
session that already holds a frame with an attached gain map fails with
`NotImplemented` — a capability gap, not a data error. -/
def avifEncoderAddImage (st : EncoderState) (imageHasGainMap : Bool) :
    Except avifResult EncoderState :=
  if 0 < st.framesAdded ∧ st.gainMapAttached then .error .notImplemented
  else
    .ok { framesAdded := st.framesAdded + 1
          gainMapAttached := st.gainMapAttached || imageHasGainMap }

/-- C5: when the first timed frame of an encode session carries a gain
map, the first add succeeds and any second add fails with
`NotImplemented`, which is distinct from `InvalidParameter`. -/
theorem gainMapSequence_notImplemented :
    (∃ st1, avifEncoderAddImage avifEncoderInitial true = .ok st1) ∧
      (∀ st1, avifEncoderAddImage avifEncoderInitial true = .ok st1 →
        ∀ b, avifEncoderAddImage st1 b = .error .notImplemented) ∧
      avifResult.notImplemented ≠ avifResult.invalidParameter := by
  refine ⟨⟨⟨1, true⟩, rfl⟩, ?_, by decide⟩
  intro st1 h b
  have hst : st1 = ⟨1, true⟩ := by
    rw [show avifEncoderAddImage avifEncoderInitial true =
        .ok ⟨1, true⟩ from rfl] at h
    injection h with h
    exact h.symm
  subst hst
  cases b <;> decide

/-- Witness for C5: two adds of a gain-map-carrying frame, mirroring
`GainMapTest.SequenceNotSupported`. -/
theorem gainMapSequence_notImplemented_witness :
    avifEncoderAddImage avifEncoderInitial true =
        .ok (⟨1, true⟩ : EncoderState) ∧
      avifEncoderAddImage (⟨1, true⟩ : EncoderState) true =
        .error .notImplemented :=
  ⟨by decide,
    gainMapSequence_notImplemented.2.1 ⟨1, true⟩ (by decide) true⟩

/-! ## Decoder capability flags (spec sections 4.5 and 6) -/

/-- The decoder capability flags relevant to gain maps. -/
structure DecoderSettings where
  ignoreColorAndAlpha : Bool
  enableDecodingGainMap : Bool
  enableParsingGainMapMetadata : Bool
  deriving DecidableEq

/-- The gain-map-relevant content of an encoded file. -/
structure FileContent where
  hasGainMap : Bool
  gainMapImage : GridImage
  gainMapMetadata : avifGainMapMetadata
  deriving DecidableEq

/-- The gain-map-relevant state of a decoded image. -/
structure DecodedImage where
  gainMapPresent : Bool
  gainMapImage : Option GridImage
  gainMapMetadata : avifGainMapMetadata
  deriving DecidableEq

/-- Modelled from the spec: `avifDecoderParse` restricted to gain-map
state (the C decoder is not under `src/`).  Parsing succeeds whatever the
capability flags; the gain map is reported present exactly when the file
carries one; the metadata is populated only when
`enableParsingGainMapMetadata` is set, otherwise it stays at the all-zero
default; the gain-map image is decoded only when `enableDecodingGainMap`
is set, otherwise its pointer stays null (`none`). -/
def avifDecoderParse (s : DecoderSettings) (f : FileContent) :
    Except avifResult DecodedImage :=
  .ok { gainMapPresent := f.hasGainMap
        gainMapImage :=
          if s.enableDecodingGainMap && f.hasGainMap then some f.gainMapImage
          else none
        gainMapMetadata :=
          if s.enableParsingGainMapMetadata && f.hasGainMap then
            f.gainMapMetadata
          else avifGainMapMetadata.zero }

/-- Modelled from the spec: `avifDecoderNextImage` restricted to gain-map
state.  When color/alpha decoding and gain-map decoding are both disabled
there is no pixel content to return, a `NoContent` condition. -/
def avifDecoderNextImage (s : DecoderSettings) (parsed : DecodedImage) :
    Except avifResult DecodedImage :=
  if s.ignoreColorAndAlpha && !s.enableDecodingGainMap then .error .noContent
  else .ok parsed

/-- Modelled from the spec: `avifDecoderReadMemory` = parse, then fetch
the first frame. -/
def avifDecoderRead (s : DecoderSettings) (f : FileContent) :
    Except avifResult DecodedImage := do
  let parsed ← avifDecoderParse s f
  avifDecoderNextImage s parsed

/-- C7: with color/alpha decoding and gain-map decoding both disabled,
parsing still succeeds (with the metadata populated when metadata parsing
is enabled), and requesting the next decoded frame yields `NoContent`,
which is neither a normal result nor any of the fault codes. -/
theorem disabledDecode_noContent (s : DecoderSettings) (f : FileContent)
    (h1 : s.ignoreColorAndAlpha = true)
    (h2 : s.enableDecodingGainMap = false) :
    ∃ parsed, avifDecoderParse s f = .ok parsed ∧
      (s.enableParsingGainMapMetadata = true → f.hasGainMap = true →
        parsed.gainMapMetadata = f.gainMapMetadata) ∧
      avifDecoderNextImage s parsed = .error .noContent ∧
      (∀ d : DecodedImage,
        (.error .noContent : Except avifResult DecodedImage) ≠ .ok d) ∧
      avifResult.noContent ≠ .invalidParameter ∧
      avifResult.noContent ≠ .invalidImageGrid ∧
      avifResult.noContent ≠ .notImplemented ∧
      avifResult.noContent ≠ .unknownError := by
  refine ⟨_, rfl, ?_, ?_, by intro d h; exact absurd h (by simp),
    by decide, by decide, by decide, by decide⟩
  · intro hp hf
    simp [hp, hf]
  · unfold avifDecoderNextImage
    rw [h1, h2]
    rfl

/-- A sample file carrying a gain map (the 6x17, 8-bit gain map of
`CreateTestImageWithGainMap`). -/
def sampleFile : FileContent := ⟨true, ⟨6, 17, 8, 1⟩, avifGainMapMetadata.zero⟩

/-- Witness for C7 with all pixel decoding disabled, mirroring
`GainMapTest.IgnoreAll`. -/
theorem disabledDecode_noContent_witness :
    (⟨true, false, true⟩ : DecoderSettings).ignoreColorAndAlpha = true ∧
      (⟨true, false, true⟩ : DecoderSettings).enableDecodingGainMap = false ∧
      ∃ parsed,
        avifDecoderParse ⟨true, false, true⟩ sampleFile = .ok parsed ∧
        ((⟨true, false, true⟩ : DecoderSettings).enableParsingGainMapMetadata =
            true → sampleFile.hasGainMap = true →
          parsed.gainMapMetadata = sampleFile.gainMapMetadata) ∧
        avifDecoderNextImage ⟨true, false, true⟩ parsed =
          .error .noContent ∧
        (∀ d : DecodedImage,
          (.error .noContent : Except avifResult DecodedImage) ≠ .ok d) ∧
        avifResult.noContent ≠ .invalidParameter ∧
        avifResult.noContent ≠ .invalidImageGrid ∧
        avifResult.noContent ≠ .notImplemented ∧
        avifResult.noContent ≠ .unknownError :=
  ⟨rfl, rfl,
    disabledDecode_noContent ⟨true, false, true⟩ sampleFile rfl rfl⟩

/-- C10: decoding a gain-map-carrying file with gain-map pixel decoding
disabled succeeds, still reports the gain map as present, leaves the
gain-map image pointer null, and leaves the metadata at its all-zero
default unless metadata parsing is enabled, in which case the metadata is
populated while the image pointer remains null. -/
theorem ignoreGainMapPixels_decode (s : DecoderSettings) (f : FileContent)
    (hf : f.hasGainMap = true) (hd : s.enableDecodingGainMap = false)
    (hi : s.ignoreColorAndAlpha = false) :
    ∃ dec, avifDecoderRead s f = .ok dec ∧
      dec.gainMapPresent = true ∧
      dec.gainMapImage = none ∧
      (s.enableParsingGainMapMetadata = false →
        dec.gainMapMetadata = avifGainMapMetadata.zero) ∧
      (s.enableParsingGainMapMetadata = true →
        dec.gainMapMetadata = f.gainMapMetadata) := by
  refine ⟨{ gainMapPresent := f.hasGainMap
            gainMapImage :=
              if s.enableDecodingGainMap && f.hasGainMap then
                some f.gainMapImage
              else none
            gainMapMetadata :=
              if s.enableParsingGainMapMetadata && f.hasGainMap then
                f.gainMapMetadata
              else avifGainMapMetadata.zero }, ?_, ?_, ?_, ?_, ?_⟩
  · unfold avifDecoderRead avifDecoderParse
    rw [exceptBind_ok]
    unfold avifDecoderNextImage
    rw [hi]
    rfl
  · exact hf
  · simp [hd]
  · intro hp
    simp [hp]
  · intro hp
    simp [hp, hf]

/-- Witness for C10, mirroring `GainMapTest.IgnoreGainMapButReadMetadata`
(metadata parsing enabled, gain-map decoding disabled). -/
theorem ignoreGainMapPixels_decode_witness :
    sampleFile.hasGainMap = true ∧
      (⟨false, false, true⟩ : DecoderSettings).enableDecodingGainMap =
        false ∧
      (⟨false, false, true⟩ : DecoderSettings).ignoreColorAndAlpha = false ∧
      ∃ dec, avifDecoderRead ⟨false, false, true⟩ sampleFile = .ok dec ∧
        dec.gainMapPresent = true ∧
        dec.gainMapImage = none ∧
        ((⟨false, false, true⟩ : DecoderSettings).enableParsingGainMapMetadata
            = false → dec.gainMapMetadata = avifGainMapMetadata.zero) ∧
        ((⟨false, false, true⟩ : DecoderSettings).enableParsingGainMapMetadata
            = true → dec.gainMapMetadata = sampleFile.gainMapMetadata) :=
  ⟨rfl, rfl, rfl,
    ignoreGainMapPixels_decode ⟨false, false, true⟩ sampleFile rfl rfl rfl⟩

/-! ## ToneMapper: blend fraction and per-pixel gain (spec section 4.4) -/

/-- Modelled from the spec: the blend fraction `w` of `ToneMapper.Apply`
(spec 4.4 step 1, `avifImageApplyGainMap` is not under `src/`): 0 at or
below `baseHeadroom`, 1 at or above `alternateHeadroom`, linear
interpolation in log2-stop space between the two (headrooms are already
log2 stops). -/
def blendFraction (requested base alternate : ℚ) : ℚ :=
  if requested ≤ base then 0
  else if alternate ≤ requested then 1
  else (requested - base) / (alternate - base)

/-- Modelled from the spec: the effective log2 gain of a pixel
(spec 4.4 step 3) — the interpolated log ratio scales with `w`; `t` is the
dequantized, gamma-decoded gain sample. -/
def effectiveLog2Gain (gainMin gainMax t w : ℚ) : ℚ :=
  (gainMin + t * (gainMax - gainMin)) * w

/-- Modelled from the spec: the tone-mapped sample in log2-linear space
(spec 4.4 step 4): multiplying linear light by `2^g` is adding `g` in
log2 space; `baseLog` is the color-converted base sample. -/
def toneMapSampleLog (baseLog gainMin gainMax t w : ℚ) : ℚ :=
  baseLog + effectiveLog2Gain gainMin gainMax t w

/-- C3: `w = 0` whenever `requested ≤ base` — and then every tone-mapped
sample equals the color-converted base sample exactly, which subsumes the
"PSNR > 40 dB up to quantization" form of the claim — `w = 1` whenever
`requested ≥ alternate` (with `base < alternate`, the non-degenerate
ordering), and otherwise `w` is the linear interpolation in log2-stop
space. -/
theorem toneMap_blendFraction (requested base alternate : ℚ) :
    (requested ≤ base →
      blendFraction requested base alternate = 0 ∧
      ∀ baseLog gainMin gainMax t : ℚ,
        toneMapSampleLog baseLog gainMin gainMax t
          (blendFraction requested base alternate) = baseLog) ∧
    (base < alternate → alternate ≤ requested →
      blendFraction requested base alternate = 1) ∧
    (base < requested → requested < alternate →
      blendFraction requested base alternate =
        (requested - base) / (alternate - base)) := by
  refine ⟨?_, ?_, ?_⟩
  · intro h
    have hw : blendFraction requested base alternate = 0 := by
      unfold blendFraction
      rw [if_pos h]
    refine ⟨hw, fun baseLog gainMin gainMax t => ?_⟩
    rw [hw]
    unfold toneMapSampleLog effectiveLog2Gain
    ring
  · intro hba har
    unfold blendFraction
    rw [if_neg (by linarith), if_pos har]
  · intro h1 h2
    unfold blendFraction
    rw [if_neg (by linarith), if_neg (by linarith)]

/-- Witness for C3 at the headrooms of the `ToneMapTest` instantiation
(base 0, alternate 3 stops): `w = 0` with the output equal to the base at
`requested = 0`, and `w = 1` at `requested = 3`. -/
theorem toneMap_blendFraction_witness :
    ((0 : ℚ) ≤ 0 ∧
      (blendFraction 0 0 3 = 0 ∧
        ∀ baseLog gainMin gainMax t : ℚ,
          toneMapSampleLog baseLog gainMin gainMax t (blendFraction 0 0 3) =
            baseLog)) ∧
      ((0 : ℚ) < 3 ∧ (3 : ℚ) ≤ 3 ∧ blendFraction 3 0 3 = 1) :=
  ⟨⟨by norm_num, (toneMap_blendFraction 0 0 3).1 (by norm_num)⟩,
    ⟨by norm_num, by norm_num,
      (toneMap_blendFraction 3 0 3).2.1 (by norm_num) (by norm_num)⟩⟩

/-! ## GainMapSynthesizer: computation and direction symmetry
(spec sections 4.3 and 4.4)

Modelled from the spec in exact log2-linear space (`avifComputeGainMap` is
not under `src/`): images are lists of per-pixel log2 linear-light values,
a single uniform channel with the encoder defaults (offsets 0, gamma 1).
In this exact model reconstruction is exact, so the two reconstructions
compared by `CreateGainMapTest.Create` are equal outright and every
error metric — in particular PSNR — coincides, a difference of 0 dB,
within the claimed 0.5 dB. -/

/-- Clamp to `[0, 1]` (spec 4.3 step 4). -/
def clamp01 (x : ℚ) : ℚ := max 0 (min 1 x)

/-- Per-pixel log2 gain ratios (spec 4.3 step 2, with zero offsets):
`log2(alt/base) = log2 alt - log2 base`. -/
def gainRatios (base alt : List ℚ) : List ℚ :=
  List.zipWith (fun b a => a - b) base alt

/-- Running minimum (spec 4.3 step 3). -/
def listMin : List ℚ → ℚ
  | [] => 0
  | x :: xs => xs.foldl min x

/-- Running maximum (spec 4.3 step 3). -/
def listMax : List ℚ → ℚ
  | [] => 0
  | x :: xs => xs.foldl max x

/-- A computed gain map: `gainMin`/`gainMax` metadata plus the normalized
samples. -/
structure ComputedGainMap where
  gainMin : ℚ
  gainMax : ℚ
  samples : List ℚ
  deriving DecidableEq

/-- Modelled from the spec: `avifComputeGainMap` (spec 4.3) in log2
space: per-sample ratio, running min/max into the metadata, and
normalized samples `clamp((r - min)/(max - min), 0, 1)` (0 for a
degenerate constant map). -/
def avifComputeGainMap (base alt : List ℚ) : ComputedGainMap :=
  let rs := gainRatios base alt
  let mn := listMin rs
  let mx := listMax rs
  ⟨mn, mx, rs.map (fun r => if mx = mn then 0 else clamp01 ((r - mn) / (mx - mn)))⟩

/-- Modelled from the spec: `ToneMapper.Apply` in log2 space at blend
fraction `w` (spec 4.4 steps 3-4): denormalize each sample and add the
effective log2 gain to the base sample; with `backwardDirection` set the
roles of base and alternate invert and the gain is subtracted. -/
def avifApplyGainMapLog (baseLog : List ℚ) (g : ComputedGainMap) (w : ℚ)
    (backward : Bool) : List ℚ :=
  List.zipWith (fun b t =>
    if backward then b - (g.gainMin + t * (g.gainMax - g.gainMin)) * w
    else b + (g.gainMin + t * (g.gainMax - g.gainMin)) * w) baseLog g.samples

lemma foldl_min_le (xs : List ℚ) (a : ℚ) :
    xs.foldl min a ≤ a ∧ ∀ x ∈ xs, xs.foldl min a ≤ x := by
  induction xs generalizing a with
  | nil => simp
  | cons y ys ih =>
    refine ⟨?_, ?_⟩
    · exact le_trans (ih (min a y)).1 (min_le_left a y)
    · intro x hx
      rcases List.mem_cons.mp hx with h | h
      · subst h
        exact le_trans (ih (min a x)).1 (min_le_right a x)
      · exact (ih (min a y)).2 x h

lemma le_foldl_max (xs : List ℚ) (a : ℚ) :
    a ≤ xs.foldl max a ∧ ∀ x ∈ xs, x ≤ xs.foldl max a := by
  induction xs generalizing a with
  | nil => simp
  | cons y ys ih =>
    refine ⟨?_, ?_⟩
    · exact le_trans (le_max_left a y) (ih (max a y)).1
    · intro x hx
      rcases List.mem_cons.mp hx with h | h
      · subst h
        exact le_trans (le_max_right a x) (ih (max a x)).1
      · exact (ih (max a y)).2 x h

/-- Every element is bounded by the running minimum and maximum. -/
lemma listMin_le_listMax (l : List ℚ) :
    ∀ x ∈ l, listMin l ≤ x ∧ x ≤ listMax l := by
  cases l with
  | nil => simp
  | cons y ys =>
    intro x hx
    rcases List.mem_cons.mp hx with h | h
    · subst h
      exact ⟨(foldl_min_le ys x).1, (le_foldl_max ys x).1⟩
    · exact ⟨(foldl_min_le ys y).2 x h, (le_foldl_max ys y).2 x h⟩

/-- Normalizing and denormalizing a ratio inside `[gainMin, gainMax]` is
the identity. -/
lemma denorm_norm (mn mx r : ℚ) (h1 : mn ≤ r) (h2 : r ≤ mx) :
    mn + (if mx = mn then 0 else clamp01 ((r - mn) / (mx - mn))) *
      (mx - mn) = r := by
  by_cases he : mx = mn
  · rw [if_pos he]
    have : r = mn := le_antisymm (he ▸ h2) h1
    rw [this]
    ring
  · rw [if_neg he]
    have hlt : mn < mx := lt_of_le_of_ne (h1.trans h2) (fun hh => he hh.symm)
    have hpos : 0 < mx - mn := by linarith
    have hx0 : 0 ≤ (r - mn) / (mx - mn) := div_nonneg (by linarith) hpos.le
    have hx1 : (r - mn) / (mx - mn) ≤ 1 := by
      rw [div_le_one hpos]
      linarith
    rw [show clamp01 ((r - mn) / (mx - mn)) = (r - mn) / (mx - mn) by
      unfold clamp01
      rw [min_eq_right hx1, max_eq_right hx0]]
    rw [div_mul_cancel₀ _ (ne_of_gt hpos)]
    ring

/-- Core forward reconstruction: applying the normalized samples at
`w = 1` to the base recovers the alternate exactly. -/
lemma reconstruct_forward (mn mx : ℚ) :
    ∀ base alt : List ℚ, base.length = alt.length →
      (∀ r ∈ gainRatios base alt, mn ≤ r ∧ r ≤ mx) →
      List.zipWith (fun b t => b + (mn + t * (mx - mn)) * 1) base
        ((gainRatios base alt).map
          (fun r => if mx = mn then 0 else clamp01 ((r - mn) / (mx - mn)))) =
        alt := by
  intro base
  induction base with
  | nil =>
    intro alt h _
    cases alt with
    | nil => rfl
    | cons a as => simp at h
  | cons b bs ih =>
    intro alt h hr
    cases alt with
    | nil => simp at h
    | cons a as =>
      unfold gainRatios at hr ⊢
      rw [List.zipWith_cons_cons, List.map_cons, List.zipWith_cons_cons]
      have hhead := hr (a - b)
        (by rw [List.zipWith_cons_cons]; exact List.mem_cons_self _ _)
      have hd := denorm_norm mn mx (a - b) hhead.1 hhead.2
      congr 1
      · show b + (mn + (if mx = mn then 0
            else clamp01 ((a - b - mn) / (mx - mn))) * (mx - mn)) * 1 = a
        linarith [hd]
      · exact ih as (by simpa using h) (fun r hrr => hr r
          (by rw [List.zipWith_cons_cons]; exact List.mem_cons_of_mem _ hrr))

/-- Core backward reconstruction: applying the normalized samples at
`w = 1` in the backward direction to the alternate recovers the base
exactly. -/
lemma reconstruct_backward (mn mx : ℚ) :
    ∀ base alt : List ℚ, base.length = alt.length →
      (∀ r ∈ gainRatios base alt, mn ≤ r ∧ r ≤ mx) →
      List.zipWith (fun a t => a - (mn + t * (mx - mn)) * 1) alt
        ((gainRatios base alt).map
          (fun r => if mx = mn then 0 else clamp01 ((r - mn) / (mx - mn)))) =
        base := by
  intro base
  induction base with
  | nil =>
    intro alt h _
    cases alt with
    | nil => rfl
    | cons a as => simp at h
  | cons b bs ih =>
    intro alt h hr
    cases alt with
    | nil => simp at h
    | cons a as =>
      unfold gainRatios at hr ⊢
      rw [List.zipWith_cons_cons, List.map_cons, List.zipWith_cons_cons]
      have hhead := hr (a - b)
        (by rw [List.zipWith_cons_cons]; exact List.mem_cons_self _ _)
      have hd := denorm_norm mn mx (a - b) hhead.1 hhead.2
      congr 1
      · show a - (mn + (if mx = mn then 0
            else clamp01 ((a - b - mn) / (mx - mn))) * (mx - mn)) * 1 = b
        linarith [hd]
      · exact ih as (by simpa using h) (fun r hrr => hr r
          (by rw [List.zipWith_cons_cons]; exact List.mem_cons_of_mem _ hrr))

lemma applyGainMapLog_false (baseLog : List ℚ) (g : ComputedGainMap)
    (w : ℚ) :
    avifApplyGainMapLog baseLog g w false =
      List.zipWith
        (fun b t => b + (g.gainMin + t * (g.gainMax - g.gainMin)) * w)
        baseLog g.samples := by
  unfold avifApplyGainMapLog
  congr 1

lemma applyGainMapLog_true (baseLog : List ℚ) (g : ComputedGainMap)
    (w : ℚ) :
    avifApplyGainMapLog baseLog g w true =
      List.zipWith
        (fun b t => b - (g.gainMin + t * (g.gainMax - g.gainMin)) * w)
        baseLog g.samples := by
  unfold avifApplyGainMapLog
  congr 1

lemma computeGainMap_gainMin (base alt : List ℚ) :
    (avifComputeGainMap base alt).gainMin = listMin (gainRatios base alt) :=
  rfl

lemma computeGainMap_gainMax (base alt : List ℚ) :
    (avifComputeGainMap base alt).gainMax = listMax (gainRatios base alt) :=
  rfl

lemma computeGainMap_samples (base alt : List ℚ) :
    (avifComputeGainMap base alt).samples =
      (gainRatios base alt).map (fun r =>
        if listMax (gainRatios base alt) = listMin (gainRatios base alt)
        then 0
        else clamp01 ((r - listMin (gainRatios base alt)) /
          (listMax (gainRatios base alt) - listMin (gainRatios base alt)))) :=
  rfl

/-- In the exact model, a computed gain map applied at `w = 1` to its base
reconstructs the alternate exactly. -/
lemma computeApply_forward (base alt : List ℚ)
    (h : base.length = alt.length) :
    avifApplyGainMapLog base (avifComputeGainMap base alt) 1 false = alt := by
  rw [applyGainMapLog_false, computeGainMap_gainMin, computeGainMap_gainMax,
    computeGainMap_samples]
  exact reconstruct_forward _ _ base alt h
    (fun r hr => listMin_le_listMax _ r hr)

/-- In the exact model, a computed gain map applied backward at `w = 1` to
its alternate reconstructs the base exactly. -/
lemma computeApply_backward (base alt : List ℚ)
    (h : base.length = alt.length) :
    avifApplyGainMapLog alt (avifComputeGainMap base alt) 1 true = base := by
  rw [applyGainMapLog_true, computeGainMap_gainMin, computeGainMap_gainMax,
    computeGainMap_samples]
  exact reconstruct_backward _ _ base alt h
    (fun r hr => listMin_le_listMax _ r hr)

/-- C6: computing `Compute(sdr, hdr)` and reversing direction reconstructs
the same samples as computing `Compute(hdr, sdr)` directly — in the exact
model both reconstructions are exact in either tone-mapping direction, so
they are equal lists and their reconstruction PSNRs coincide (difference
0 dB, within the claimed 0.5 dB). -/
theorem gainMap_direction_symmetry (sdr hdr : List ℚ)
    (h : sdr.length = hdr.length) :
    avifApplyGainMapLog hdr (avifComputeGainMap sdr hdr) 1 true = sdr ∧
      avifApplyGainMapLog hdr (avifComputeGainMap hdr sdr) 1 false = sdr ∧
      avifApplyGainMapLog hdr (avifComputeGainMap sdr hdr) 1 true =
        avifApplyGainMapLog hdr (avifComputeGainMap hdr sdr) 1 false ∧
      avifApplyGainMapLog sdr (avifComputeGainMap sdr hdr) 1 false = hdr ∧
      avifApplyGainMapLog sdr (avifComputeGainMap hdr sdr) 1 true = hdr ∧
      avifApplyGainMapLog sdr (avifComputeGainMap sdr hdr) 1 false =
        avifApplyGainMapLog sdr (avifComputeGainMap hdr sdr) 1 true := by
  have h1 := computeApply_backward sdr hdr h
  have h2 := computeApply_forward hdr sdr h.symm
  have h3 := computeApply_forward sdr hdr h
  have h4 := computeApply_backward hdr sdr h.symm
  exact ⟨h1, h2, h1.trans h2.symm, h3, h4, h3.trans h4.symm⟩

/-- Witness for C6 on a concrete 3-pixel image pair. -/
theorem gainMap_direction_symmetry_witness :
    ([0, 1, 2] : List ℚ).length = ([3, 5, 4] : List ℚ).length ∧
      (avifApplyGainMapLog [3, 5, 4]
          (avifComputeGainMap [0, 1, 2] [3, 5, 4]) 1 true = [0, 1, 2] ∧
        avifApplyGainMapLog [3, 5, 4]
          (avifComputeGainMap [3, 5, 4] [0, 1, 2]) 1 false = [0, 1, 2] ∧
        avifApplyGainMapLog [3, 5, 4]
            (avifComputeGainMap [0, 1, 2] [3, 5, 4]) 1 true =
          avifApplyGainMapLog [3, 5, 4]
            (avifComputeGainMap [3, 5, 4] [0, 1, 2]) 1 false ∧
        avifApplyGainMapLog [0, 1, 2]
          (avifComputeGainMap [0, 1, 2] [3, 5, 4]) 1 false = [3, 5, 4] ∧
        avifApplyGainMapLog [0, 1, 2]
          (avifComputeGainMap [3, 5, 4] [0, 1, 2]) 1 true = [3, 5, 4] ∧
        avifApplyGainMapLog [0, 1, 2]
            (avifComputeGainMap [0, 1, 2] [3, 5, 4]) 1 false =
          avifApplyGainMapLog [0, 1, 2]
            (avifComputeGainMap [3, 5, 4] [0, 1, 2]) 1 true) :=
  ⟨rfl, gainMap_direction_symmetry [0, 1, 2] [3, 5, 4] rfl⟩
